import Mathlib

/-!
Verification of the block retrieval and enrichment pipeline of the
`vknamadexer` server (`src/server/endpoints/block.rs`).

The endpoint handlers `get_tx_hashes`, `get_block_by_hash`,
`get_block_by_height` and `get_last_block` are embedded shallowly: the
database, the transaction decoder and the epoch RPC client become
explicit function fields of `ServerState`, rows become structured
records, and fallible Rust functions return `Except Error`.
-/

/-- Errors propagated by the endpoint handlers (the crate's `Error` type,
collapsed to the cases reachable from the embedded code paths). -/
inductive Error where
  /-- a failure of `TxInfo::try_from` on a raw transaction row -/
  | txConvert : String → Error
  /-- a failure of the `query_epoch_at_height` RPC call -/
  | oracle : String → Error
  /-- a storage-layer failure (e.g. `get_last_block` on an empty store) -/
  | store : String → Error
  /-- a `hex::decode` failure on a malformed block-hash path parameter -/
  | hexErr : String → Error
deriving DecidableEq, Repr

/-- Wrapper around raw hash bytes (`HashID(Vec<u8>)` in `server/blocks.rs`;
bytes are modelled as `List Nat`). -/
structure HashID where
  val : List Nat
deriving DecidableEq, Repr

/-- One element of a block's transaction manifest
(`TxShort { tx_type, hash_id }` in `server/blocks.rs`). -/
structure TxShort where
  tx_type : String
  hash_id : HashID
deriving DecidableEq, Repr

/-- One row of the transaction-hash index for a block: the hash bytes and
the raw kind tag read by `row.try_get("hash")` / `row.try_get("tx_type")`
in `get_tx_hashes`. -/
structure TxHashEntry where
  hash : List Nat
  tx_type : String
deriving DecidableEq, Repr

/-- The raw persisted transaction record returned by `db.get_tx`
(its payload bytes, opaque to the classification logic). -/
structure TxRecord where
  data : List Nat
deriving DecidableEq, Repr

/-- Modelled from the spec: `TxInfo` (from the missing `server/tx.rs`) as
far as the classification path observes it — the converted record whose
`tx` field is populated by `decode_tx` on success.  Here we keep the
originating record; the decode outcome is supplied by the `decodeTx`
field of `ServerState`. -/
structure TxInfo where
  record : TxRecord
deriving DecidableEq, Repr

/-- Modelled from the spec: the closed set of decoded transaction
variants (`TxDecoded` of the missing `server/tx.rs`), exactly the tags
matched in `get_tx_hashes`, plus the unrecognized fallback. -/
inductive TxDecoded where
  | Transfer | Bond | RevealPK | VoteProposal | BecomeValidator
  | InitValidator | Unbond | Withdraw | InitAccount | UpdateAccount
  | ResignSteward | UpdateStewardCommission | EthPoolBridge | Ibc
  | ConsensusKeyChange | CommissionChange | MetaDataChange | ClaimRewards
  | DeactivateValidator | ReactivateValidator | UnjailValidator
  | InitProposal | Unrecognized
deriving DecidableEq, Repr

/-- Block header as far as the pipeline observes it: `block.header.height`
is read for the epoch query, the rest is copied verbatim. -/
structure Header where
  height : Nat
  time : String
  proposer : String
deriving DecidableEq, Repr

/-- One persisted block row: exposes the block identifier bytes
(`row.try_get("block_id")`), the header and last-commit metadata. -/
structure BlockRow where
  block_id : List Nat
  header : Header
  last_commit : String
deriving DecidableEq, Repr

/-- The assembled block view (`BlockInfo` of the missing
`server/blocks.rs`): identifier, header, last-commit and the transaction
manifest filled in by `get_tx_hashes`. -/
structure BlockInfo where
  block_id : List Nat
  header : Header
  last_commit : String
  tx_hashes : List TxShort
deriving DecidableEq, Repr

/-- Modelled from the spec: `BlockInfo::try_from(&row)` (missing
`server/blocks.rs`) copies identifier, header and last-commit verbatim
from the row; the manifest starts empty and is populated afterwards. -/
def BlockInfo.fromRow (row : BlockRow) : BlockInfo :=
  { block_id := row.block_id
    header := row.header
    last_commit := row.last_commit
    tx_hashes := [] }

/-- The enriched block (`BlockInfoWithEpoch` of `server/blocks.rs`):
the assembled block plus the epoch at its height. -/
structure BlockInfoWithEpoch where
  block_id : List Nat
  header : Header
  last_commit : String
  tx_hashes : List TxShort
  epoch : Nat
deriving DecidableEq, Repr

/-- The untagged union returned by `/block/last`
(`enum LatestBlock` in `block.rs`). -/
inductive LatestBlock where
  | LastBlock : BlockInfoWithEpoch → LatestBlock
  | LatestBlocks : List BlockInfoWithEpoch → LatestBlock
deriving DecidableEq, Repr

/-- The server state seen by the handlers: the database, the checksums
map and the RPC client of `ServerState` (`server/mod.rs`), with each
external call a function field.  Store lookups are given on their
success path (`Option` for presence); the latest-block fetch and the
epoch RPC keep their failure channel because the handlers propagate it. -/
structure ServerState where
  /-- `db.get_tx_hashes_block(hash)`: the persisted index rows of a
  block, in stored order. -/
  get_tx_hashes_block : List Nat → List TxHashEntry
  /-- `db.get_tx(hash)`: the raw transaction record, if present. -/
  get_tx : List Nat → Option TxRecord
  /-- the `checksums_map` of `ServerState`. -/
  checksums_map : List (String × String)
  /-- Modelled from the spec: `TxInfo::try_from(row)` of the missing
  `server/tx.rs`, a fallible conversion of the raw record. -/
  tryFromTxRecord : TxRecord → Except Error TxInfo
  /-- Modelled from the spec: the decode outcome of `tx.decode_tx(&checksums)`
  of the missing `server/tx.rs` — `some v` sets `tx.tx` to the decoded
  variant, `none` is a swallowed decode failure leaving `tx.tx` absent. -/
  decodeTx : TxInfo → List (String × String) → Option TxDecoded
  /-- `db.block_by_id(id)`: the block row with that identifier, if any. -/
  block_by_id : List Nat → Option BlockRow
  /-- `db.block_by_height(h)`: the block row at that height, if any. -/
  block_by_height : Nat → Option BlockRow
  /-- `db.get_last_block()`: the most recent block row; fails when the
  store is empty. -/
  get_last_block_row : Except Error BlockRow
  /-- `db.get_lastest_blocks(num, offset)`: up to `num` most recent rows
  from `offset`, in descending-recency order. -/
  get_lastest_blocks : Int → Option Int → List BlockRow
  /-- `query_epoch_at_height(&http_client, height)`: the epoch RPC,
  failing when the node is unreachable. -/
  query_epoch_at_height : Nat → Except Error Nat

/-- The variant-tag-to-label match of `get_tx_hashes` (`block.rs:52-78`),
applied to the `tx.tx` field after the decode attempt: each recognized
variant maps to its fixed string, the wildcard arm (absent or
unrecognized variant) to `"Decrypted"`. -/
def classifyDecoded : Option TxDecoded → String
  | some .Transfer => "Transfer"
  | some .Bond => "Bond"
  | some .RevealPK => "RevealPK"
  | some .VoteProposal => "VoteProposal"
  | some .BecomeValidator => "BecomeValidator"
  | some .InitValidator => "InitValidator"
  | some .Unbond => "Unbond"
  | some .Withdraw => "Withdraw"
  | some .InitAccount => "InitAccount"
  | some .UpdateAccount => "UpdateAccount"
  | some .ResignSteward => "ResignSteward"
  | some .UpdateStewardCommission => "UpdateStewardCommission"
  | some .EthPoolBridge => "EthPoolBridge"
  | some .Ibc => "Ibc"
  | some .ConsensusKeyChange => "ConsensusKeyChange"
  | some .CommissionChange => "CommissionChange"
  | some .MetaDataChange => "MetaDataChange"
  | some .ClaimRewards => "ClaimRewards"
  | some .DeactivateValidator => "DeactivateValidator"
  | some .ReactivateValidator => "ReactivateValidator"
  | some .UnjailValidator => "UnjailValidator"
  | some .InitProposal => "InitProposal"
  | _ => "Decrypted"

/-- Outcome of one iteration of the `get_tx_hashes` loop body
(`block.rs:36-87`): the `break` on a missing record, a propagated
conversion error, or a summary pushed onto `tx_hashes`. -/
inductive ClassifyResult where
  | stop : ClassifyResult
  | err : Error → ClassifyResult
  | keep : TxShort → ClassifyResult
deriving DecidableEq, Repr

/-- The body of the `get_tx_hashes` loop for one index row
(`block.rs:38-86`): a `"Decrypted"` tag fetches the record (`break` if
absent), converts it (`?` on failure), attempts the decode with the
error ignored, and labels by the decoded variant; any other tag is
labelled `"Wrapper"` with no fetch and no decode. -/
def classifyEntry (s : ServerState) (e : TxHashEntry) : ClassifyResult :=
  if e.tx_type = "Decrypted" then
    match s.get_tx e.hash with
    | none => .stop
    | some record =>
      match s.tryFromTxRecord record with
      | .error er => .err er
      | .ok tx =>
          .keep { tx_type := classifyDecoded (s.decodeTx tx s.checksums_map)
                  hash_id := ⟨e.hash⟩ }
  else
    .keep { tx_type := "Wrapper", hash_id := ⟨e.hash⟩ }

/-- The `for row in rows` loop of `get_tx_hashes` (`block.rs:36-87`):
summaries accumulate in row order; `break` ends the loop keeping what
was accumulated so far; an error aborts the whole call. -/
def getTxHashesLoop (s : ServerState) : List TxHashEntry → Except Error (List TxShort)
  | [] => .ok []
  | e :: rest =>
    match classifyEntry s e with
    | .stop => .ok []
    | .err er => .error er
    | .keep t => (getTxHashesLoop s rest).map (fun tl => t :: tl)

/-- `get_tx_hashes(state, block, hash)` (`block.rs:28-92`): fetches the
index rows for `hash`, runs the classification loop and stores the
resulting manifest in `block.tx_hashes`. -/
def get_tx_hashes (s : ServerState) (block : BlockInfo) (hash : List Nat) :
    Except Error BlockInfo :=
  (getTxHashesLoop s (s.get_tx_hashes_block hash)).map
    (fun txs => { block with tx_hashes := txs })

/-- Value of one hexadecimal digit, as `hex::decode` accepts it. -/
def hexVal (c : Char) : Option Nat :=
  if '0' ≤ c ∧ c ≤ '9' then some (c.toNat - '0'.toNat)
  else if 'a' ≤ c ∧ c ≤ 'f' then some (c.toNat - 'a'.toNat + 10)
  else if 'A' ≤ c ∧ c ≤ 'F' then some (c.toNat - 'A'.toNat + 10)
  else none

/-- Byte-pairwise hex decoding (`hex::decode`): fails on odd length or a
non-hexadecimal character. -/
def hexDecodeList : List Char → Option (List Nat)
  | [] => some []
  | [_] => none
  | a :: b :: rest => do
    let hi ← hexVal a
    let lo ← hexVal b
    let tl ← hexDecodeList rest
    pure ((hi * 16 + lo) :: tl)

/-- `hex::decode` on the path-parameter string of `/block/hash/:block_hash`. -/
def hexDecode (s : String) : Option (List Nat) :=
  hexDecodeList s.data

/-- `get_block_by_hash` (`block.rs:94-112`): hex-decodes the path
parameter, looks the block up by identifier, returns `ok none` when
absent, otherwise assembles the manifest using the row's `block_id`. -/
def get_block_by_hash (s : ServerState) (hash : String) :
    Except Error (Option BlockInfo) :=
  match hexDecode hash with
  | none => .error (.hexErr hash)
  | some id =>
    match s.block_by_id id with
    | none => .ok none
    | some row =>
      (get_tx_hashes s (BlockInfo.fromRow row) row.block_id).map some

/-- `get_block_by_height` (`block.rs:114-131`): looks the block up by
height, returns `ok none` when absent, otherwise assembles the manifest
using the row's `block_id`. -/
def get_block_by_height (s : ServerState) (height : Nat) :
    Except Error (Option BlockInfo) :=
  match s.block_by_height height with
  | none => .ok none
  | some row =>
    (get_tx_hashes s (BlockInfo.fromRow row) row.block_id).map some

/-- The per-row body shared by both branches of `get_last_block`
(`block.rs:148-161` and `block.rs:170-183`): convert the row, assemble
its manifest, query the epoch at its height, and build the
`BlockInfoWithEpoch` field by field. -/
def enrichRow (s : ServerState) (row : BlockRow) :
    Except Error BlockInfoWithEpoch := do
  let block := BlockInfo.fromRow row
  let block ← get_tx_hashes s block row.block_id
  let epoch ← s.query_epoch_at_height block.header.height
  pure { block_id := block.block_id
         header := block.header
         last_commit := block.last_commit
         tx_hashes := block.tx_hashes
         epoch := epoch }

/-- The `for row in rows` loop of the `num`-present branch
(`block.rs:147-164`): each row is enriched in order and pushed; any
failure aborts the whole request. -/
def enrichRows (s : ServerState) : List BlockRow → Except Error (List BlockInfoWithEpoch)
  | [] => .ok []
  | row :: rest => do
    let b ← enrichRow s row
    let tl ← enrichRows s rest
    pure (b :: tl)

/-- `get_last_block` (`block.rs:134-187`): with `num` present, fetch the
latest rows at the given offset and return `LatestBlocks`; with `num`
absent, fetch the single most recent row and return `LastBlock`
(`offset` is read but unused in that branch). -/
def get_last_block (s : ServerState) (num offset : Option Int) :
    Except Error LatestBlock :=
  match num with
  | some n =>
    (enrichRows s (s.get_lastest_blocks n offset)).map .LatestBlocks
  | none => do
    let row ← s.get_last_block_row
    (enrichRow s row).map .LastBlock

/-- Following the spec's words (§4.1): the identity mapping from a
decoded variant tag to the string form of the tag, with the
unrecognized case mapping to `"Decrypted"`.  Stated independently of
the code so the classification table can be compared against it. -/
def specVariantLabel : TxDecoded → String
  | .Transfer => "Transfer"
  | .Bond => "Bond"
  | .RevealPK => "RevealPK"
  | .VoteProposal => "VoteProposal"
  | .BecomeValidator => "BecomeValidator"
  | .InitValidator => "InitValidator"
  | .Unbond => "Unbond"
  | .Withdraw => "Withdraw"
  | .InitAccount => "InitAccount"
  | .UpdateAccount => "UpdateAccount"
  | .ResignSteward => "ResignSteward"
  | .UpdateStewardCommission => "UpdateStewardCommission"
  | .EthPoolBridge => "EthPoolBridge"
  | .Ibc => "Ibc"
  | .ConsensusKeyChange => "ConsensusKeyChange"
  | .CommissionChange => "CommissionChange"
  | .MetaDataChange => "MetaDataChange"
  | .ClaimRewards => "ClaimRewards"
  | .DeactivateValidator => "DeactivateValidator"
  | .ReactivateValidator => "ReactivateValidator"
  | .UnjailValidator => "UnjailValidator"
  | .InitProposal => "InitProposal"
  | .Unrecognized => "Decrypted"

/-- Following the spec's words (§8): the shape conversion that sends a
single-block result to the one-element-sequence result and leaves a
sequence result unchanged, used to compare the two `Latest` sub-cases. -/
def toSequenceShape : LatestBlock → LatestBlock
  | .LastBlock b => .LatestBlocks [b]
  | .LatestBlocks l => .LatestBlocks l

/-- A fixed sample header for concrete evaluations. -/
def hdrA : Header := ⟨10, "t0", "val0"⟩

/-- A fixed sample block row for concrete evaluations. -/
def rowA : BlockRow := ⟨[9], hdrA, "lc0"⟩

/-- A minimal server state: empty store, conversion succeeds, decode
fails, oracle returns epoch `0`. -/
def baseState : ServerState where
  get_tx_hashes_block := fun _ => []
  get_tx := fun _ => none
  checksums_map := []
  tryFromTxRecord := fun r => .ok ⟨r⟩
  decodeTx := fun _ _ => none
  block_by_id := fun _ => none
  block_by_height := fun _ => none
  get_last_block_row := .error (.store "empty")
  get_lastest_blocks := fun _ _ => []
  query_epoch_at_height := fun _ => .ok 0

/-- A state with three persisted index rows for every block, whose
middle `"Decrypted"` row has no transaction record in the store. -/
def c1State : ServerState :=
  { baseState with
    get_tx_hashes_block := fun _ =>
      [⟨[1], "Wrapper"⟩, ⟨[2], "Decrypted"⟩, ⟨[3], "Wrapper"⟩] }

/-- A state with two persisted index rows whose `"Decrypted"` row has a
present record that decodes to `Bond`. -/
def c2State : ServerState :=
  { baseState with
    get_tx_hashes_block := fun _ => [⟨[1], "Wrapper"⟩, ⟨[2], "Decrypted"⟩]
    get_tx := fun h => if h = [2] then some ⟨[7]⟩ else none
    decodeTx := fun _ _ => some .Bond }

/-- A state whose `"Decrypted"` record at hash `[2]` is present but
fails to decode (`decodeTx` of `baseState` yields `none`). -/
def c4State : ServerState :=
  { baseState with get_tx := fun h => if h = [2] then some ⟨[7]⟩ else none }

/-- A state whose store has a latest block but whose epoch RPC fails. -/
def c8State : ServerState :=
  { baseState with
    get_last_block_row := .ok rowA
    query_epoch_at_height := fun _ => .error (.oracle "down") }

/-- A state whose latest-block fetch and latest-blocks(1, 0) fetch agree
on the single row `rowA`, with a working oracle. -/
def c9State : ServerState :=
  { baseState with
    get_last_block_row := .ok rowA
    get_lastest_blocks := fun n off =>
      if n = 1 ∧ off = some 0 then [rowA] else []
    query_epoch_at_height := fun _ => .ok 5 }

/-! ## Helper lemmas -/

/-- The classification table agrees with the spec-side label map on
every decoded variant. -/
theorem classifyDecoded_some (v : TxDecoded) :
    classifyDecoded (some v) = specVariantLabel v := by
  cases v <;> rfl

/-- An entry whose record (when needed) is present and convertible is
kept by the loop body, with its own hash. -/
theorem classifyEntry_keep_of_present (s : ServerState) (e : TxHashEntry)
    (h : e.tx_type = "Decrypted" →
      ∃ r tx, s.get_tx e.hash = some r ∧ s.tryFromTxRecord r = .ok tx) :
    ∃ t, classifyEntry s e = .keep t ∧ t.hash_id = ⟨e.hash⟩ := by
  by_cases hd : e.tx_type = "Decrypted"
  · obtain ⟨r, tx, hr, htx⟩ := h hd
    refine ⟨{ tx_type := classifyDecoded (s.decodeTx tx s.checksums_map),
              hash_id := ⟨e.hash⟩ }, ?_, rfl⟩
    simp [classifyEntry, hd, hr, htx]
  · refine ⟨{ tx_type := "Wrapper", hash_id := ⟨e.hash⟩ }, ?_, rfl⟩
    simp [classifyEntry, hd]

/-- When every entry of the list is kept, the loop succeeds and returns
one summary per entry, hashes in order. -/
theorem getTxHashesLoop_ok_of_present (s : ServerState) (l : List TxHashEntry)
    (h : ∀ e ∈ l, e.tx_type = "Decrypted" →
      ∃ r tx, s.get_tx e.hash = some r ∧ s.tryFromTxRecord r = .ok tx) :
    ∃ ts, getTxHashesLoop s l = .ok ts ∧ ts.length = l.length ∧
      ts.map (fun t => t.hash_id.val) = l.map (fun e => e.hash) := by
  induction l with
  | nil => exact ⟨[], rfl, rfl, rfl⟩
  | cons e rest ih =>
    obtain ⟨t, ht, hh⟩ := classifyEntry_keep_of_present s e (h e (by simp))
    obtain ⟨ts, hts, hlen, hmap⟩ := ih (fun x hx => h x (by simp [hx]))
    refine ⟨t :: ts, ?_, by simp [hlen], ?_⟩
    · simp [getTxHashesLoop, ht, hts, Except.map]
    · simp [hmap, hh]

/-- When every entry ahead of a `stop` entry is kept, the loop succeeds
with exactly the summaries of those earlier entries: the `stop` entry
and everything after it are discarded. -/
theorem getTxHashesLoop_append_stop (s : ServerState) (l1 : List TxHashEntry)
    (e : TxHashEntry) (l2 : List TxHashEntry)
    (h : ∀ x ∈ l1, x.tx_type = "Decrypted" →
      ∃ r tx, s.get_tx x.hash = some r ∧ s.tryFromTxRecord r = .ok tx)
    (hstop : classifyEntry s e = .stop) :
    ∃ ts, getTxHashesLoop s (l1 ++ e :: l2) = .ok ts ∧
      ts.length = l1.length ∧
      ts.map (fun t => t.hash_id.val) = l1.map (fun x => x.hash) := by
  induction l1 with
  | nil => exact ⟨[], by simp [getTxHashesLoop, hstop], rfl, rfl⟩
  | cons x rest ih =>
    obtain ⟨t, ht, hh⟩ := classifyEntry_keep_of_present s x (h x (by simp))
    obtain ⟨ts, hts, hlen, hmap⟩ := ih (fun y hy => h y (by simp [hy]))
    refine ⟨t :: ts, ?_, by simp [hlen], by simp [hmap, hh]⟩
    simp [getTxHashesLoop, ht, hts, Except.map]

/-- A successful `get_tx_hashes` changes only the `tx_hashes` field and
stores exactly the loop result there. -/
theorem get_tx_hashes_ok_fields (s : ServerState) (block : BlockInfo)
    (hash : List Nat) (b : BlockInfo)
    (h : get_tx_hashes s block hash = .ok b) :
    b.block_id = block.block_id ∧ b.header = block.header ∧
    b.last_commit = block.last_commit ∧
    getTxHashesLoop s (s.get_tx_hashes_block hash) = .ok b.tx_hashes := by
  unfold get_tx_hashes at h
  cases hl : getTxHashesLoop s (s.get_tx_hashes_block hash) with
  | error er => rw [hl] at h; simp [Except.map] at h
  | ok ts =>
    rw [hl] at h
    simp only [Except.map, Except.ok.injEq] at h
    subst h
    exact ⟨rfl, rfl, rfl, rfl⟩

/-- A successful `enrichRow` copies the row's identifier and header and
records the oracle's answer at the row's height as the epoch. -/
theorem enrichRow_ok (s : ServerState) (row : BlockRow) (b : BlockInfoWithEpoch)
    (h : enrichRow s row = .ok b) :
    b.block_id = row.block_id ∧ b.header = row.header ∧
    s.query_epoch_at_height row.header.height = .ok b.epoch := by
  simp only [enrichRow] at h
  cases hg : get_tx_hashes s (BlockInfo.fromRow row) row.block_id with
  | error er => rw [hg] at h; simp [bind, Except.bind] at h
  | ok blk =>
    rw [hg] at h
    simp only [bind, Except.bind] at h
    obtain ⟨hid, hhd, _, _⟩ := get_tx_hashes_ok_fields s _ _ blk hg
    cases ho : s.query_epoch_at_height blk.header.height with
    | error er => rw [ho] at h; simp at h
    | ok ep =>
      rw [ho] at h
      simp only [pure, Except.pure, Except.ok.injEq] at h
      subst h
      refine ⟨by simp [hid, BlockInfo.fromRow], by simp [hhd, BlockInfo.fromRow], ?_⟩
      rw [← ho]
      simp [hhd, BlockInfo.fromRow]

/-- A successful `enrichRows` returns one enriched block per input row,
identifiers in order, each epoch being the oracle's answer at the
block's own height. -/
theorem enrichRows_ok (s : ServerState) (rows : List BlockRow)
    (l : List BlockInfoWithEpoch) (h : enrichRows s rows = .ok l) :
    l.map (fun b => b.block_id) = rows.map (fun row => row.block_id) ∧
    ∀ b ∈ l, s.query_epoch_at_height b.header.height = .ok b.epoch := by
  induction rows generalizing l with
  | nil =>
    simp only [enrichRows, Except.ok.injEq] at h
    subst h
    exact ⟨rfl, by simp⟩
  | cons row rest ih =>
    cases hx : enrichRow s row with
    | error er => simp [enrichRows, hx, bind, Except.bind] at h
    | ok b =>
      cases hrest : enrichRows s rest with
      | error er => simp [enrichRows, hx, hrest, bind, Except.bind] at h
      | ok lrest =>
        simp only [enrichRows, hx, hrest, bind, Except.bind, pure,
          Except.pure, Except.ok.injEq] at h
        subst h
        obtain ⟨hmap, hall⟩ := ih lrest hrest
        obtain ⟨hid, hhd, hep⟩ := enrichRow_ok s row b hx
        refine ⟨by simp [hmap, hid], ?_⟩
        intro x hx'
        rcases List.mem_cons.mp hx' with h | h
        · subst h; rw [hhd]; exact hep
        · exact hall x h

/-- If some earlier rows enrich fine and one row's enrichment fails,
the whole loop of the `num`-present branch fails with that error. -/
theorem enrichRows_append_error (s : ServerState) (l1 : List BlockRow)
    (row : BlockRow) (l2 : List BlockRow) (l : List BlockInfoWithEpoch)
    (er : Error) (h1 : enrichRows s l1 = .ok l)
    (h2 : enrichRow s row = .error er) :
    enrichRows s (l1 ++ row :: l2) = .error er := by
  induction l1 generalizing l with
  | nil => simp [enrichRows, h2, bind, Except.bind]
  | cons x rest ih =>
    cases hx : enrichRow s x with
    | error e2 => simp [enrichRows, hx, bind, Except.bind] at h1
    | ok bx =>
      cases hrest : enrichRows s rest with
      | error e2 => simp [enrichRows, hx, hrest, bind, Except.bind] at h1
      | ok lrest =>
        simp [enrichRows, hx, bind, Except.bind, ih lrest hrest]

/-- The loop body never reads the oracle: replacing the oracle function
leaves classification untouched. -/
theorem classifyEntry_oracle_irrel (s : ServerState)
    (f : Nat → Except Error Nat) (e : TxHashEntry) :
    classifyEntry { s with query_epoch_at_height := f } e = classifyEntry s e :=
  rfl

/-- The classification loop never reads the oracle. -/
theorem getTxHashesLoop_oracle_irrel (s : ServerState)
    (f : Nat → Except Error Nat) (l : List TxHashEntry) :
    getTxHashesLoop { s with query_epoch_at_height := f } l =
      getTxHashesLoop s l := by
  induction l with
  | nil => rfl
  | cons e rest ih =>
    simp only [getTxHashesLoop, classifyEntry_oracle_irrel, ih]

/-- Manifest assembly never reads the oracle. -/
theorem get_tx_hashes_oracle_irrel (s : ServerState)
    (f : Nat → Except Error Nat) (block : BlockInfo) (hash : List Nat) :
    get_tx_hashes { s with query_epoch_at_height := f } block hash =
      get_tx_hashes s block hash := by
  simp only [get_tx_hashes, getTxHashesLoop_oracle_irrel]

/-- The wildcard arm of the classification table: an absent decoded
variant yields the generic label. -/
theorem classifyDecoded_none : classifyDecoded none = "Decrypted" := rfl

/-! ## Claim theorems -/

/-- C3: a `"Wrapper"`-tagged index entry is classified with label
exactly `"Wrapper"` in every server state — in particular the outcome
is independent of the record store, converter and decoder (the second
conjunct, over an arbitrary second state), so no record fetch and no
decode attempt can influence it. -/
theorem wrapper_entry_label (s s2 : ServerState) (e : TxHashEntry)
    (h : e.tx_type = "Wrapper") :
    classifyEntry s e = .keep { tx_type := "Wrapper", hash_id := ⟨e.hash⟩ } ∧
    classifyEntry s e = classifyEntry s2 e := by
  have h1 : classifyEntry s e =
      .keep { tx_type := "Wrapper", hash_id := ⟨e.hash⟩ } := by
    simp [classifyEntry, h]
  have h2 : classifyEntry s2 e =
      .keep { tx_type := "Wrapper", hash_id := ⟨e.hash⟩ } := by
    simp [classifyEntry, h]
  exact ⟨h1, h1.trans h2.symm⟩

/-- Witness for `wrapper_entry_label` at a concrete entry and states. -/
theorem wrapper_entry_label_witness :
    (⟨[1], "Wrapper"⟩ : TxHashEntry).tx_type = "Wrapper" ∧
    classifyEntry baseState ⟨[1], "Wrapper"⟩ =
      .keep { tx_type := "Wrapper", hash_id := ⟨[1]⟩ } :=
  ⟨rfl, (wrapper_entry_label baseState c2State ⟨[1], "Wrapper"⟩ rfl).1⟩

/-- C10: any raw kind tag other than the exact string `"Decrypted"` —
not only `"Wrapper"` — is classified with label exactly `"Wrapper"`,
in every server state and independently of the record store, converter
and decoder: only `"Decrypted"` reaches the fetch-and-decode path. -/
theorem non_decrypted_label_wrapper (s s2 : ServerState) (e : TxHashEntry)
    (h : e.tx_type ≠ "Decrypted") :
    classifyEntry s e = .keep { tx_type := "Wrapper", hash_id := ⟨e.hash⟩ } ∧
    classifyEntry s e = classifyEntry s2 e := by
  have h1 : classifyEntry s e =
      .keep { tx_type := "Wrapper", hash_id := ⟨e.hash⟩ } := by
    simp [classifyEntry, h]
  have h2 : classifyEntry s2 e =
      .keep { tx_type := "Wrapper", hash_id := ⟨e.hash⟩ } := by
    simp [classifyEntry, h]
  exact ⟨h1, h1.trans h2.symm⟩

/-- Witness for `non_decrypted_label_wrapper` at a tag outside the
documented closed set. -/
theorem non_decrypted_label_wrapper_witness :
    (⟨[4], "Other"⟩ : TxHashEntry).tx_type ≠ "Decrypted" ∧
    classifyEntry baseState ⟨[4], "Other"⟩ =
      .keep { tx_type := "Wrapper", hash_id := ⟨[4]⟩ } :=
  ⟨by decide,
    (non_decrypted_label_wrapper baseState c2State ⟨[4], "Other"⟩ (by decide)).1⟩

/-- C4: a `"Decrypted"` entry whose record is present and convertible
but whose bytes fail to decode is still kept, with label exactly
`"Decrypted"`; the decode error is not propagated, and the loop simply
prepends the summary and continues with the remaining entries. -/
theorem decode_failure_falls_back (s : ServerState) (e : TxHashEntry)
    (r : TxRecord) (tx : TxInfo) (rest : List TxHashEntry)
    (htag : e.tx_type = "Decrypted")
    (hrec : s.get_tx e.hash = some r)
    (hconv : s.tryFromTxRecord r = .ok tx)
    (hdec : s.decodeTx tx s.checksums_map = none) :
    classifyEntry s e = .keep { tx_type := "Decrypted", hash_id := ⟨e.hash⟩ } ∧
    getTxHashesLoop s (e :: rest) =
      (getTxHashesLoop s rest).map
        (fun tl => { tx_type := "Decrypted", hash_id := ⟨e.hash⟩ } :: tl) := by
  have h1 : classifyEntry s e =
      .keep { tx_type := "Decrypted", hash_id := ⟨e.hash⟩ } := by
    simp [classifyEntry, htag, hrec, hconv, hdec, classifyDecoded_none]
  exact ⟨h1, by simp [getTxHashesLoop, h1]⟩

/-- Witness for `decode_failure_falls_back` at a concrete state whose
record at hash `[2]` is present but does not decode. -/
theorem decode_failure_falls_back_witness :
    c4State.get_tx [2] = some ⟨[7]⟩ ∧
    c4State.tryFromTxRecord ⟨[7]⟩ = .ok ⟨⟨[7]⟩⟩ ∧
    c4State.decodeTx ⟨⟨[7]⟩⟩ c4State.checksums_map = none ∧
    classifyEntry c4State ⟨[2], "Decrypted"⟩ =
      .keep { tx_type := "Decrypted", hash_id := ⟨[2]⟩ } :=
  ⟨rfl, rfl, rfl,
    (decode_failure_falls_back c4State ⟨[2], "Decrypted"⟩ ⟨[7]⟩ ⟨⟨[7]⟩⟩ []
      rfl rfl rfl rfl).1⟩

/-- C5: a `"Decrypted"` entry whose record decodes successfully is
labelled with the string form of the decoded variant's tag (the
spec-side identity mapping `specVariantLabel`, under which e.g. `Bond`
yields `"Bond"` and the unrecognized variant yields `"Decrypted"`);
an absent variant likewise yields `"Decrypted"`. -/
theorem decoded_variant_label (s : ServerState) (e : TxHashEntry)
    (r : TxRecord) (tx : TxInfo) (v : TxDecoded)
    (htag : e.tx_type = "Decrypted")
    (hrec : s.get_tx e.hash = some r)
    (hconv : s.tryFromTxRecord r = .ok tx) :
    (s.decodeTx tx s.checksums_map = some v →
      classifyEntry s e =
        .keep { tx_type := specVariantLabel v, hash_id := ⟨e.hash⟩ }) ∧
    (s.decodeTx tx s.checksums_map = none →
      classifyEntry s e =
        .keep { tx_type := "Decrypted", hash_id := ⟨e.hash⟩ }) := by
  constructor
  · intro hd
    simp [classifyEntry, htag, hrec, hconv, hd, classifyDecoded_some]
  · intro hd
    simp [classifyEntry, htag, hrec, hconv, hd, classifyDecoded_none]

/-- Witness for `decoded_variant_label` at a concrete state whose
record at hash `[2]` decodes to the `Bond` variant. -/
theorem decoded_variant_label_witness :
    c2State.get_tx [2] = some ⟨[7]⟩ ∧
    c2State.tryFromTxRecord ⟨[7]⟩ = .ok ⟨⟨[7]⟩⟩ ∧
    c2State.decodeTx ⟨⟨[7]⟩⟩ c2State.checksums_map = some .Bond ∧
    classifyEntry c2State ⟨[2], "Decrypted"⟩ =
      .keep { tx_type := "Bond", hash_id := ⟨[2]⟩ } :=
  ⟨rfl, rfl, rfl,
    (decoded_variant_label c2State ⟨[2], "Decrypted"⟩ ⟨[7]⟩ ⟨⟨[7]⟩⟩ .Bond
      rfl rfl rfl).1 rfl⟩

/-- C1 (counterexample): with three persisted entries whose middle
`"Decrypted"` entry has no record in the store, the claim predicts the
two `"Wrapper"` summaries (N − 1 = 2, the entry after the gap still
present); the code instead `break`s out of the loop, so the assembled
block keeps only the single summary that precedes the gap. -/
theorem missingRecord_drops_suffix_cx :
    c1State.get_tx_hashes_block [9] =
      [⟨[1], "Wrapper"⟩, ⟨[2], "Decrypted"⟩, ⟨[3], "Wrapper"⟩] ∧
    c1State.get_tx [2] = none ∧
    get_tx_hashes c1State (BlockInfo.fromRow rowA) [9] =
      .ok { block_id := [9], header := hdrA, last_commit := "lc0",
            tx_hashes := [{ tx_type := "Wrapper", hash_id := ⟨[1]⟩ }] } ∧
    [({ tx_type := "Wrapper", hash_id := ⟨[1]⟩ } : TxShort)].length ≠ 3 - 1 := by
  refine ⟨rfl, rfl, rfl, by decide⟩

/-- C1 (amended): when a `"Decrypted"` entry's record is absent, the
loop `break`s: every entry before the gap (each kept by the
classifier) is classified and present in order, the missing entry and
every entry after it are dropped, and no error is returned — with the
gap at position `i` (0-based) the assembled block has `i` summaries,
not `N − 1`. -/
theorem missingRecord_truncates_manifest (s : ServerState)
    (block : BlockInfo) (hash : List Nat) (l1 : List TxHashEntry)
    (e : TxHashEntry) (l2 : List TxHashEntry)
    (hrows : s.get_tx_hashes_block hash = l1 ++ e :: l2)
    (hkeep : ∀ x ∈ l1, x.tx_type = "Decrypted" →
      ∃ r tx, s.get_tx x.hash = some r ∧ s.tryFromTxRecord r = .ok tx)
    (htag : e.tx_type = "Decrypted")
    (hmiss : s.get_tx e.hash = none) :
    ∃ b, get_tx_hashes s block hash = .ok b ∧
      b.tx_hashes.length = l1.length ∧
      b.tx_hashes.map (fun t => t.hash_id.val) = l1.map (fun x => x.hash) := by
  have hstop : classifyEntry s e = .stop := by
    simp [classifyEntry, htag, hmiss]
  obtain ⟨ts, hts, hlen, hmap⟩ :=
    getTxHashesLoop_append_stop s l1 e l2 hkeep hstop
  refine ⟨{ block with tx_hashes := ts }, ?_, by simpa using hlen,
    by simpa using hmap⟩
  simp [get_tx_hashes, hrows, hts, Except.map]

/-- Witness for `missingRecord_truncates_manifest` at the concrete
three-entry state with the record gap in the middle. -/
theorem missingRecord_truncates_manifest_witness :
    c1State.get_tx_hashes_block [9] =
      [⟨[1], "Wrapper"⟩] ++ ⟨[2], "Decrypted"⟩ :: [⟨[3], "Wrapper"⟩] ∧
    c1State.get_tx [2] = none ∧
    ∃ b, get_tx_hashes c1State (BlockInfo.fromRow rowA) [9] = .ok b ∧
      b.tx_hashes.length = [(⟨[1], "Wrapper"⟩ : TxHashEntry)].length ∧
      b.tx_hashes.map (fun t => t.hash_id.val) =
        [(⟨[1], "Wrapper"⟩ : TxHashEntry)].map (fun x => x.hash) :=
  ⟨rfl, rfl,
    missingRecord_truncates_manifest c1State (BlockInfo.fromRow rowA) [9]
      [⟨[1], "Wrapper"⟩] ⟨[2], "Decrypted"⟩ [⟨[3], "Wrapper"⟩] rfl
      (by intro x hx hd
          simp only [List.mem_singleton] at hx
          subst hx
          exact absurd hd (by decide))
      rfl rfl⟩

/-- C2: when every `"Decrypted"` entry among the N persisted index rows
has a present record that converts to a `TxInfo`, the assembled block
carries exactly N summaries whose hashes are the persisted hashes in
the persisted order — no reordering, deduplication or omission. -/
theorem manifest_preserves_count_and_order (s : ServerState)
    (block : BlockInfo) (hash : List Nat)
    (h : ∀ e ∈ s.get_tx_hashes_block hash, e.tx_type = "Decrypted" →
      ∃ r tx, s.get_tx e.hash = some r ∧ s.tryFromTxRecord r = .ok tx) :
    ∃ b, get_tx_hashes s block hash = .ok b ∧
      b.tx_hashes.length = (s.get_tx_hashes_block hash).length ∧
      b.tx_hashes.map (fun t => t.hash_id.val) =
        (s.get_tx_hashes_block hash).map (fun e => e.hash) := by
  obtain ⟨ts, hts, hlen, hmap⟩ :=
    getTxHashesLoop_ok_of_present s (s.get_tx_hashes_block hash) h
  refine ⟨{ block with tx_hashes := ts }, ?_, by simpa using hlen,
    by simpa using hmap⟩
  simp [get_tx_hashes, hts, Except.map]

/-- Witness for `manifest_preserves_count_and_order` at a concrete
two-entry state whose `"Decrypted"` record is present. -/
theorem manifest_preserves_count_and_order_witness :
    (∀ e ∈ c2State.get_tx_hashes_block [9], e.tx_type = "Decrypted" →
      ∃ r tx, c2State.get_tx e.hash = some r ∧
        c2State.tryFromTxRecord r = .ok tx) ∧
    ∃ b, get_tx_hashes c2State (BlockInfo.fromRow rowA) [9] = .ok b ∧
      b.tx_hashes.length = (c2State.get_tx_hashes_block [9]).length ∧
      b.tx_hashes.map (fun t => t.hash_id.val) =
        (c2State.get_tx_hashes_block [9]).map (fun e => e.hash) := by
  have h : ∀ e ∈ c2State.get_tx_hashes_block [9], e.tx_type = "Decrypted" →
      ∃ r tx, c2State.get_tx e.hash = some r ∧
        c2State.tryFromTxRecord r = .ok tx := by
    intro e he hd
    simp only [c2State, baseState, List.mem_cons, List.mem_singleton,
      List.not_mem_nil, or_false] at he
    rcases he with he | he
    · subst he; exact absurd hd (by decide)
    · subst he; exact ⟨⟨[7]⟩, ⟨⟨[7]⟩⟩, rfl, rfl⟩
  exact ⟨h, manifest_preserves_count_and_order c2State
    (BlockInfo.fromRow rowA) [9] h⟩

/-- Replacing the oracle function leaves the by-identifier lookup
untouched. -/
theorem setOracle_block_by_id (s : ServerState) (f : Nat → Except Error Nat) :
    ({ s with query_epoch_at_height := f } : ServerState).block_by_id =
      s.block_by_id := rfl

/-- Replacing the oracle function leaves the by-height lookup
untouched. -/
theorem setOracle_block_by_height (s : ServerState) (f : Nat → Except Error Nat) :
    ({ s with query_epoch_at_height := f } : ServerState).block_by_height =
      s.block_by_height := rfl

/-- C6: a well-formed hash that decodes but is absent from the store,
and a height absent from the store, both make their handler return the
explicit empty payload `ok none` — not an error. -/
theorem absent_block_returns_none (s : ServerState) (hash : String)
    (id : List Nat) (height : Nat)
    (hhex : hexDecode hash = some id)
    (hid : s.block_by_id id = none)
    (hht : s.block_by_height height = none) :
    get_block_by_hash s hash = .ok none ∧
    get_block_by_height s height = .ok none := by
  constructor
  · simp [get_block_by_hash, hhex, hid]
  · simp [get_block_by_height, hht]

/-- Witness for `absent_block_returns_none` on the empty store with the
well-formed hash string `"ab"` and height `3`. -/
theorem absent_block_returns_none_witness :
    hexDecode "ab" = some [171] ∧
    baseState.block_by_id [171] = none ∧
    baseState.block_by_height 3 = none ∧
    (get_block_by_hash baseState "ab" = .ok none ∧
     get_block_by_height baseState 3 = .ok none) :=
  ⟨rfl, rfl, rfl, absent_block_returns_none baseState "ab" [171] 3 rfl rfl rfl⟩

/-- C7: the result shape of `/block/last` is decided solely by the
presence of the count parameter: with `num` absent a successful request
is a single `LastBlock` annotated with the oracle's epoch at its own
height; with `num` present it is a `LatestBlocks` sequence whose
identifiers are exactly those of the fetched rows in fetch (descending
recency) order, each element annotated with its own epoch. -/
theorem latest_shape_by_count (s : ServerState) (offset : Option Int) :
    (∀ r, get_last_block s none offset = .ok r →
      ∃ b, r = .LastBlock b ∧
        s.query_epoch_at_height b.header.height = .ok b.epoch) ∧
    (∀ n r, get_last_block s (some n) offset = .ok r →
      ∃ l, r = .LatestBlocks l ∧
        l.map (fun b => b.block_id) =
          (s.get_lastest_blocks n offset).map (fun row => row.block_id) ∧
        ∀ b ∈ l, s.query_epoch_at_height b.header.height = .ok b.epoch) := by
  constructor
  · intro r h
    simp only [get_last_block] at h
    cases hrow : s.get_last_block_row with
    | error er => rw [hrow] at h; simp [bind, Except.bind] at h
    | ok row =>
      rw [hrow] at h
      simp only [bind, Except.bind] at h
      cases he : enrichRow s row with
      | error er => rw [he] at h; simp [Except.map] at h
      | ok b =>
        rw [he] at h
        simp only [Except.map, Except.ok.injEq] at h
        subst h
        obtain ⟨_, hhd, hep⟩ := enrichRow_ok s row b he
        exact ⟨b, rfl, by rw [hhd]; exact hep⟩
  · intro n r h
    simp only [get_last_block] at h
    cases he : enrichRows s (s.get_lastest_blocks n offset) with
    | error er => rw [he] at h; simp [Except.map] at h
    | ok l =>
      rw [he] at h
      simp only [Except.map, Except.ok.injEq] at h
      subst h
      obtain ⟨hmap, hall⟩ := enrichRows_ok s _ l he
      exact ⟨l, rfl, hmap, hall⟩

/-- Witness for `latest_shape_by_count`: on a store whose most recent
row is `rowA` and whose oracle answers epoch `5`, the no-count request
succeeds with a single `LastBlock`, and the theorem recovers its shape
and epoch annotation. -/
theorem latest_shape_by_count_witness :
    get_last_block c9State none (some 0) =
      .ok (.LastBlock ⟨[9], hdrA, "lc0", [], 5⟩) ∧
    ∃ b, LatestBlock.LastBlock ⟨[9], hdrA, "lc0", [], 5⟩ = .LastBlock b ∧
      c9State.query_epoch_at_height b.header.height = .ok b.epoch :=
  ⟨rfl, (latest_shape_by_count c9State (some 0)).1 _ rfl⟩

/-- C8: an oracle failure at the height of the block being enriched
makes the whole `/block/last` request fail with exactly that error, in
both the no-count branch and (with any earlier rows already enriched)
the count branch, so no partial result is returned; the by-hash and
by-height handlers never consult the oracle — replacing the oracle
function arbitrarily leaves their results unchanged. -/
theorem oracle_failure_latest_only (s : ServerState) (offset : Option Int)
    (er : Error) :
    (∀ row b, s.get_last_block_row = .ok row →
      get_tx_hashes s (BlockInfo.fromRow row) row.block_id = .ok b →
      s.query_epoch_at_height b.header.height = .error er →
      get_last_block s none offset = .error er) ∧
    (∀ n l1 row l2 l b, s.get_lastest_blocks n offset = l1 ++ row :: l2 →
      enrichRows s l1 = .ok l →
      get_tx_hashes s (BlockInfo.fromRow row) row.block_id = .ok b →
      s.query_epoch_at_height b.header.height = .error er →
      get_last_block s (some n) offset = .error er) ∧
    (∀ f hash height,
      get_block_by_hash { s with query_epoch_at_height := f } hash =
        get_block_by_hash s hash ∧
      get_block_by_height { s with query_epoch_at_height := f } height =
        get_block_by_height s height) := by
  refine ⟨?_, ?_, ?_⟩
  · intro row b hrow hb ho
    have herow : enrichRow s row = .error er := by
      simp [enrichRow, hb, ho, bind, Except.bind]
    simp [get_last_block, hrow, herow, bind, Except.bind, Except.map]
  · intro n l1 row l2 l b hrows hpre hb ho
    have herow : enrichRow s row = .error er := by
      simp [enrichRow, hb, ho, bind, Except.bind]
    simp [get_last_block, hrows,
      enrichRows_append_error s l1 row l2 l er hpre herow, Except.map]
  · intro f hash height
    constructor
    · simp only [get_block_by_hash, setOracle_block_by_id,
        get_tx_hashes_oracle_irrel]
    · simp only [get_block_by_height, setOracle_block_by_height,
        get_tx_hashes_oracle_irrel]

/-- Witness for `oracle_failure_latest_only`: on a store with latest
row `rowA` and an oracle that always fails, the no-count request fails
with the oracle error. -/
theorem oracle_failure_latest_only_witness :
    c8State.get_last_block_row = .ok rowA ∧
    get_tx_hashes c8State (BlockInfo.fromRow rowA) rowA.block_id =
      .ok ⟨[9], hdrA, "lc0", []⟩ ∧
    c8State.query_epoch_at_height hdrA.height = .error (.oracle "down") ∧
    get_last_block c8State none none = .error (.oracle "down") :=
  ⟨rfl, rfl, rfl,
    (oracle_failure_latest_only c8State none (.oracle "down")).1 rowA
      ⟨[9], hdrA, "lc0", []⟩ rfl rfl rfl⟩

/-- C9: when the latest-blocks fetch with count 1 and offset 0 yields
exactly the row of the latest-block fetch, the two `Latest` sub-cases
agree up to shape: the count branch's answer is the no-count branch's
answer with its single block repackaged as a one-element sequence
(identical identifier, header, last-commit, summaries and epoch), and
an identical error when enrichment fails. -/
theorem latest_one_equiv_single (s : ServerState) (row : BlockRow)
    (h1 : s.get_last_block_row = .ok row)
    (h2 : s.get_lastest_blocks 1 (some 0) = [row]) :
    get_last_block s (some 1) (some 0) =
      (get_last_block s none (some 0)).map toSequenceShape := by
  simp only [get_last_block, h1, h2, bind, Except.bind]
  cases he : enrichRow s row with
  | error er => simp [enrichRows, he, bind, Except.bind, Except.map]
  | ok b =>
    simp [enrichRows, he, bind, Except.bind, Except.map, pure, Except.pure,
      toSequenceShape]

/-- Witness for `latest_one_equiv_single` on the concrete store whose
two latest-block fetches agree on `rowA`. -/
theorem latest_one_equiv_single_witness :
    c9State.get_last_block_row = .ok rowA ∧
    c9State.get_lastest_blocks 1 (some 0) = [rowA] ∧
    get_last_block c9State (some 1) (some 0) =
      (get_last_block c9State none (some 0)).map toSequenceShape :=
  ⟨rfl, rfl, latest_one_equiv_single c9State rowA rfl rfl⟩
